import Mathlib

/-!
Shallow embedding of `wordle_solver.py` (the word-guessing solver core):
the feedback simulator `Game.automatic_check`, the per-letter constraint
records `CharInfo`, the constraint collection `AllInfo` with its merge
(`__add__`), match predicate and filter, and the session type `Game`.

Words are modelled as lists of characters that are already normalized
(uppercase, accent-free): the source's `normalize` (NFD + uppercase + strip
combining marks) is the identity on such words, and every word handled by the
core has been normalized by the I/O layer, so `normalize` calls are dropped.

Python `int` is modelled by `ℤ`; the `float('inf')` sentinel used for
`CharInfo.max_amount` is modelled by `⊤` in `WithTop ℤ`, which reproduces the
`min`/comparison behaviour of mixing `inf` with integers.  Python `set[int]`
position sets are `Finset ℕ`.  The vocabulary passed to `Game` by `Main` is a
Python `list`, modelled as `List Word`; `AllInfo.filter` wraps its result in
`set(...)` in the source, which on the duplicate-free candidate lists the
program builds is observationally the plain filtered list (up to the
unspecified iteration order of a Python set), so it is modelled as
`List.filter`.
-/

abbrev Word := List Char

/-- `string.ascii_uppercase`, the key set of the `AllInfo.char_info` dict. -/
def ascii_uppercase : Finset Char :=
  {'A', 'B', 'C', 'D', 'E', 'F', 'G', 'H', 'I', 'J', 'K', 'L', 'M',
   'N', 'O', 'P', 'Q', 'R', 'S', 'T', 'U', 'V', 'W', 'X', 'Y', 'Z'}

/-- The `MatchStatus` enum. -/
inductive MatchStatus : Type
  | NO_MATCH
  | WRONG_POSITION
  | CORRECT_POSITION
deriving DecidableEq

/-- The `GuessResult` dataclass: a guess word with its per-position feedback. -/
structure GuessResult where
  word : Word
  result : List MatchStatus
deriving DecidableEq

/-- `GuessResult.__bool__`: solved iff every status is CORRECT_POSITION. -/
def GuessResult.solved (gr : GuessResult) : Prop :=
  ∀ st ∈ gr.result, st = MatchStatus.CORRECT_POSITION

/-! ### Feedback simulation (`Game.automatic_check`)

The source's first pass walks `i in range(len(secret))`, marks
`CORRECT_POSITION` where `guess[i] == secret[i]` and blanks that secret letter
in the working copy `actual_letters`.  We record the outcome of that pass as
the list of `(guess char, optional mark)` pairs and the blanked working copy.
-/

/-- First pass: each guess position paired with its pass-1 mark
(`some CORRECT_POSITION` on an exact match, `none` when still unmarked). -/
def pass1Pairs : Word → Word → List (Char × Option MatchStatus)
  | g :: gs, s :: ss =>
      (g, if g = s then some MatchStatus.CORRECT_POSITION else none) :: pass1Pairs gs ss
  | _, _ => []

/-- First pass: the working copy `actual_letters` after exact matches are
blanked out (`None` in the source becomes `none`). -/
def pass1Actual : Word → Word → List (Option Char)
  | g :: gs, s :: ss => (if g = s then none else some s) :: pass1Actual gs ss
  | _, _ => []

/-- The inner loop of the second pass: scan `actual_letters` left to right for
the first unconsumed occurrence of `c`; if found, return the working copy with
that occurrence blanked, else `none`.  (In Python, `guess[i] == actual[j]` is
`False` whenever `actual[j]` is `None`.) -/
def consume (c : Char) : List (Option Char) → Option (List (Option Char))
  | [] => none
  | a :: rest =>
      if a = some c then some (none :: rest)
      else (consume c rest).map (fun r => a :: r)

/-- Second pass: positions already marked keep their mark; an unmarked
position is `WRONG_POSITION` when its letter can consume an unconsumed secret
occurrence and `NO_MATCH` otherwise. -/
def pass2 : List (Char × Option MatchStatus) → List (Option Char) → List MatchStatus
  | [], _ => []
  | (_, some st) :: rest, actual => st :: pass2 rest actual
  | (c, none) :: rest, actual =>
      match consume c actual with
      | some actual1 => MatchStatus.WRONG_POSITION :: pass2 rest actual1
      | none => MatchStatus.NO_MATCH :: pass2 rest actual

/-- The feedback list computed by `Game.automatic_check` for a guess against a
secret (defined whenever the guess is at least as long as the secret; the
source indexes `guess_normalized[i]` for `i < len(secret)`). -/
def simResult (guess secret : Word) : List MatchStatus :=
  pass2 (pass1Pairs guess secret) (pass1Actual guess secret)

/-- `Game.automatic_check` as a standalone function of guess and secret.
The source raises `IndexError` when the guess is shorter than the secret
(`guess_normalized[i]` for `i` up to `len(secret) - 1`), modelled as `none`;
a guess longer than the secret raises nothing and yields a result list of the
secret's length. -/
def simulate (guess secret : Word) : Option GuessResult :=
  if guess.length < secret.length then none
  else some ⟨guess, simResult guess secret⟩

/-! ### Per-letter constraints (`CharInfo`) -/

/-- The `CharInfo` dataclass: per-letter accumulated knowledge. -/
structure CharInfo where
  char : Char
  correct_positions : Finset ℕ
  wrong_positions : Finset ℕ
  min_amount : ℤ
  max_amount : WithTop ℤ

/-- `CharInfo.match`: every confirmed-correct position holds the letter, no
confirmed-wrong position holds it, and its occurrence count lies in
`[min_amount, max_amount]`.  The source indexes `word[i]`, which assumes
`i < len(word)`; out-of-range positions are read as the non-letter `'?'`. -/
def CharInfo.Match (ci : CharInfo) (word : Word) : Prop :=
  (∀ i ∈ ci.correct_positions, word.getD i '?' = ci.char) ∧
  (∀ i ∈ ci.wrong_positions, word.getD i '?' ≠ ci.char) ∧
  ci.min_amount ≤ (word.count ci.char : ℤ) ∧
  ((word.count ci.char : ℤ) : WithTop ℤ) ≤ ci.max_amount

instance (ci : CharInfo) (word : Word) : Decidable (ci.Match word) := by
  unfold CharInfo.Match
  exact inferInstance

/-- `CharInfo.add`: absorb one guess's per-letter observations.  The source's
`None` arguments for absent letters coincide with passing the empty set. -/
def CharInfo.add (self : CharInfo) (match_count : ℕ) (has_mismatches : Bool)
    (correct_positions wrong_positions : Finset ℕ) : CharInfo :=
  let cp := self.correct_positions ∪ correct_positions
  let wp := self.wrong_positions ∪ wrong_positions
  { char := self.char
    correct_positions := cp
    wrong_positions := wp
    min_amount := max self.min_amount (max (match_count : ℤ) (cp.card : ℤ))
    max_amount := if has_mismatches then ((match_count : ℤ) : WithTop ℤ) else self.max_amount }

/-! ### The constraint collection (`AllInfo`)

The source keeps a dict from each uppercase letter to its `CharInfo`; we model
it as a function on `Char` whose values outside `ascii_uppercase` are never
consulted by `Match`, `filter`, or the cross-letter sum.
-/

/-- The `AllInfo` dataclass. -/
structure AllInfo where
  char_info : Char → CharInfo

/-- The default `AllInfo`: a fresh unconstrained `CharInfo` per letter
(`min_amount = 0`, `max_amount = inf`). -/
def AllInfo.init : AllInfo :=
  ⟨fun c => ⟨c, ∅, ∅, 0, ⊤⟩⟩

/-- `AllInfo.match`: a word matches iff it matches every letter's constraint
(the dict holds exactly the uppercase letters). -/
def AllInfo.Match (a : AllInfo) (word : Word) : Prop :=
  ∀ c ∈ ascii_uppercase, (a.char_info c).Match word

instance (a : AllInfo) (word : Word) : Decidable (a.Match word) := by
  unfold AllInfo.Match
  exact inferInstance

/-- `AllInfo.filter`: keep the words that match. -/
def AllInfo.filter (a : AllInfo) (words : List Word) : List Word :=
  words.filter (fun w => decide (a.Match w))

/-- The pairs `zip(guess_result.word, guess_result.result)` iterated by
`AllInfo.__add__` (Python's `zip` truncates to the shorter list). -/
def guessPairs (gr : GuessResult) : List (Char × MatchStatus) :=
  gr.word.zip gr.result

/-- `char_match_count[c]` accumulated by `AllInfo.__add__`: how many positions
of the guess hold `c` with a non-`NO_MATCH` status. -/
def char_match_count (gr : GuessResult) (c : Char) : ℕ :=
  (guessPairs gr).countP (fun p => decide (p.1 = c ∧ p.2 ≠ MatchStatus.NO_MATCH))

/-- `c ∈ char_mismatches` accumulated by `AllInfo.__add__`: some position of
the guess holds `c` with status `NO_MATCH`. -/
def char_mismatches (gr : GuessResult) (c : Char) : Prop :=
  (c, MatchStatus.NO_MATCH) ∈ guessPairs gr

instance (gr : GuessResult) (c : Char) : Decidable (char_mismatches gr c) := by
  unfold char_mismatches
  exact inferInstance

/-- `char_correct_positions[c]` accumulated by `AllInfo.__add__`: the positions
of the guess holding `c` with status `CORRECT_POSITION`. -/
def char_correct_positions (gr : GuessResult) (c : Char) : Finset ℕ :=
  (Finset.range (guessPairs gr).length).filter
    (fun i => (guessPairs gr).getD i ('?', MatchStatus.NO_MATCH) = (c, MatchStatus.CORRECT_POSITION))

/-- `char_wrong_positions[c]` accumulated by `AllInfo.__add__`: the positions
of the guess holding `c` with a status other than `CORRECT_POSITION`
(both the `NO_MATCH` and the `WRONG_POSITION` branches add the index). -/
def char_wrong_positions (gr : GuessResult) (c : Char) : Finset ℕ :=
  (Finset.range (guessPairs gr).length).filter
    (fun i => ((guessPairs gr).getD i ('?', MatchStatus.NO_MATCH)).1 = c ∧
      ((guessPairs gr).getD i ('?', MatchStatus.NO_MATCH)).2 ≠ MatchStatus.CORRECT_POSITION)

/-- The intermediate dict `ret.char_info` of `AllInfo.__add__`, before the
cross-letter tightening loop. -/
def AllInfo.step (a : AllInfo) (gr : GuessResult) (c : Char) : CharInfo :=
  (a.char_info c).add (char_match_count gr c) (decide (char_mismatches gr c))
    (char_correct_positions gr c) (char_wrong_positions gr c)

/-- `known_char_count` of `AllInfo.__add__`: the sum of `min_amount` over the
dict's (uppercase-letter) entries after the per-letter update. -/
def AllInfo.known_count (a : AllInfo) (gr : GuessResult) : ℤ :=
  ∑ c ∈ ascii_uppercase, (a.step gr c).min_amount

/-- `AllInfo.__add__`: per-letter update followed by the cross-letter
tightening `max_amount = min(max_amount, min_amount + unknown_char_count,
word_size - len(wrong_positions))` with
`unknown_char_count = word_size - known_char_count`. -/
def AllInfo.add (a : AllInfo) (gr : GuessResult) : AllInfo :=
  ⟨fun c =>
    { a.step gr c with
      max_amount :=
        min (a.step gr c).max_amount
          (min ((((a.step gr c).min_amount + ((gr.word.length : ℤ) - a.known_count gr)) : ℤ) : WithTop ℤ)
            ((((gr.word.length : ℤ) - ((a.step gr c).wrong_positions.card : ℤ)) : ℤ) : WithTop ℤ)) }⟩

/-! ### The session (`Game`) -/

/-- The `Game` class state. -/
structure Game where
  secret_word : Option Word
  all_info : AllInfo
  word_size : ℕ
  words : List Word
  possible_words : List Word

/-- `Game.__init__`.  `Main` passes the vocabulary as a list, so
`next(iter(words))` is its head and raises `StopIteration` exactly on the
empty vocabulary, modelled as `none`.  No other validation is performed. -/
def Game.create (words : List Word) (secret_word : Option Word) : Option Game :=
  match words with
  | [] => none
  | w0 :: rest =>
      some
        { secret_word := secret_word
          all_info := AllInfo.init
          word_size := w0.length
          words := w0 :: rest
          possible_words := w0 :: rest }

/-- `Game.merge_result`: absorb the feedback into `all_info`, then re-filter
the candidate words. -/
def Game.merge_result (g : Game) (gr : GuessResult) : Game :=
  let ai := g.all_info.add gr
  { g with all_info := ai, possible_words := ai.filter g.possible_words }

/-- `Game.automatic_check` on the session: simulates the stored secret
(`normalize(self.secret_word)` raises when the secret is absent, modelled as
`none`). -/
def Game.automatic_check (g : Game) (guess : Word) : Option GuessResult :=
  g.secret_word.bind (fun s => simulate guess s)

/-! ### Guess proposal (`Game.automatic_guess`)

The two early returns are modelled exactly.  The scoring pass over the
vocabulary uses Python floats; it is modelled with the same formulas over `ℚ`
(exact arithmetic in place of floating point).  No claim is settled against
the scoring branch.
-/

/-- `letter_pos_prob[c][i]`: candidates with `c` at position `i`, divided by
the full vocabulary size. -/
def Game.letter_pos_prob (g : Game) (c : Char) (i : ℕ) : ℚ :=
  ((g.possible_words.countP (fun w => decide (w.getD i '?' = c))) : ℚ) / (g.words.length : ℚ)

/-- `letter_count_prob[c][k]`: candidates containing exactly `k` occurrences
of `c`, divided by the full vocabulary size. -/
def Game.letter_count_prob (g : Game) (c : Char) (k : ℕ) : ℚ :=
  ((g.possible_words.countP (fun w => decide (w.count c = k))) : ℚ) / (g.words.length : ℚ)

/-- The per-word score loop: walk the enumerated letters tracking each
letter's running occurrence count, multiplying by
`max(p_correct, p_pos, p_wrong)`. -/
def Game.score_go (g : Game) : List (ℕ × Char) → (Char → ℕ) → ℚ
  | [], _ => 1
  | (i, c) :: rest, cnt =>
      let count := cnt c + 1
      let p_correct := g.letter_pos_prob c i
      let p_pos := max ((∑ k ∈ Finset.Icc count g.word_size, g.letter_count_prob c k) - p_correct) 0
      let p_wrong := ∑ k ∈ Finset.range count, g.letter_count_prob c k
      max p_correct (max p_pos p_wrong) * Game.score_go g rest (fun d => if d = c then count else cnt d)

/-- `score` of one vocabulary word. -/
def Game.word_score (g : Game) (w : Word) : ℚ :=
  Game.score_go g w.enum (fun _ => 0)

/-- The `best_guess` selection loop: first strictly smaller score wins,
starting from `best_score = inf`. -/
def Game.best_guess_go (g : Game) : List Word → Option Word → WithTop ℚ → Option Word
  | [], best, _ => best
  | w :: rest, best, best_score =>
      if ((g.word_score w : ℚ) : WithTop ℚ) < best_score then
        Game.best_guess_go g rest (some w) ((g.word_score w : ℚ) : WithTop ℚ)
      else Game.best_guess_go g rest best best_score

/-- `Game.automatic_guess`: the known answer on a singleton candidate list,
`None` on an empty one, otherwise the heuristic scoring pass. -/
def Game.automatic_guess (g : Game) : Option Word :=
  if g.possible_words.length = 1 then g.possible_words.head?
  else if g.possible_words.length = 0 then none
  else Game.best_guess_go g g.words none ⊤

/-! ### Helper lemmas: positions, counting and the second pass -/

theorem mem_ascii_ne_query : ∀ c ∈ ascii_uppercase, c ≠ '?' := by decide

theorem pass2_length :
    ∀ (ps : List (Char × Option MatchStatus)) (actual : List (Option Char)),
      (pass2 ps actual).length = ps.length
  | [], _ => rfl
  | (_, some _) :: rest, actual => by
      simp [pass2, pass2_length rest actual]
  | (c, none) :: rest, actual => by
      cases h : consume c actual with
      | none => simp [pass2, h, pass2_length rest actual]
      | some actual1 => simp [pass2, h, pass2_length rest actual1]

theorem consume_some_count (c' : Char) :
    ∀ (actual actual1 : List (Option Char)), consume c' actual = some actual1 →
      ∀ c : Char, actual.count (some c) = actual1.count (some c) + (if c = c' then 1 else 0) := by
  intro actual
  induction actual with
  | nil => intro a1 h; simp [consume] at h
  | cons a rest ih =>
      intro a1 h c
      by_cases ha : a = some c'
      · rw [consume, if_pos ha] at h
        obtain rfl : none :: rest = a1 := by simpa using h
        subst ha
        simp only [List.count_cons]
        by_cases hc : c = c'
        · subst hc; simp
        · have : ¬ ((some c' : Option Char) == some c) = true := by
            simp [beq_iff_eq]; exact fun h => hc h.symm
          simp [hc, this]
      · rw [consume, if_neg ha] at h
        cases hrec : consume c' rest with
        | none => rw [hrec] at h; simp at h
        | some rest1 =>
            rw [hrec] at h
            obtain rfl : a :: rest1 = a1 := by simpa using h
            have := ih rest1 hrec c
            simp only [List.count_cons, this]
            omega

theorem consume_none_count (c' : Char) :
    ∀ (actual : List (Option Char)), consume c' actual = none →
      actual.count (some c') = 0 := by
  intro actual
  induction actual with
  | nil => intro _; rfl
  | cons a rest ih =>
      intro h
      by_cases ha : a = some c'
      · rw [consume, if_pos ha] at h; simp at h
      · rw [consume, if_neg ha] at h
        cases hrec : consume c' rest with
        | some rest1 => rw [hrec] at h; simp at h
        | none =>
            have : ¬ (a == some c') = true := by simpa [beq_iff_eq] using ha
            simp [List.count_cons, this, ih hrec]

theorem pass2_matched_count (c : Char) :
    ∀ (ps : List (Char × Option MatchStatus)) (actual : List (Option Char)),
      (∀ p ∈ ps, p.2 = none ∨ p.2 = some MatchStatus.CORRECT_POSITION) →
      ((ps.map Prod.fst).zip (pass2 ps actual)).countP
          (fun q => decide (q.1 = c ∧ q.2 ≠ MatchStatus.NO_MATCH)) =
        ps.countP (fun p => decide (p.1 = c ∧ p.2 = some MatchStatus.CORRECT_POSITION)) +
          min (ps.countP (fun p => decide (p.1 = c ∧ p.2 = none))) (actual.count (some c)) := by
  intro ps
  induction ps with
  | nil => intro actual _; simp [pass2]
  | cons p rest ih =>
      intro actual hmk
      obtain ⟨c', m⟩ := p
      have hmkrest : ∀ p ∈ rest, p.2 = none ∨ p.2 = some MatchStatus.CORRECT_POSITION :=
        fun p hp => hmk p (List.mem_cons_of_mem _ hp)
      cases m with
      | some st =>
          have hst : st = MatchStatus.CORRECT_POSITION := by
            rcases hmk (c', some st) (List.mem_cons_self _ _) with h | h
            · exact absurd h (by simp)
            · simpa using h
          subst hst
          have hq : (if (fun q => decide (q.1 = c ∧ q.2 ≠ MatchStatus.NO_MATCH))
              ((c', MatchStatus.CORRECT_POSITION)) = true then 1 else 0) =
              (if c' = c then 1 else 0) := by
            by_cases hc : c' = c <;> simp [hc]
          have hcp : (if (fun p => decide (p.1 = c ∧ p.2 = some MatchStatus.CORRECT_POSITION))
              ((c', some MatchStatus.CORRECT_POSITION)) = true then 1 else 0) =
              (if c' = c then 1 else 0) := by
            by_cases hc : c' = c <;> simp [hc]
          have hnn : (if (fun p => decide (p.1 = c ∧ p.2 = none))
              ((c', some MatchStatus.CORRECT_POSITION)) = true then 1 else 0) = 0 := by
            simp
          rw [pass2, List.map_cons, List.zip_cons_cons, List.countP_cons, List.countP_cons,
            List.countP_cons, ih actual hmkrest, hq, hcp, hnn]
          omega
      | none =>
          have hq0 : ∀ st : MatchStatus, st ≠ MatchStatus.NO_MATCH →
              (if (fun q => decide (q.1 = c ∧ q.2 ≠ MatchStatus.NO_MATCH)) ((c', st)) = true
                then 1 else 0) = (if c' = c then 1 else 0) := by
            intro st hst
            by_cases hc : c' = c <;> simp [hc, hst]
          have hcp0 : (if (fun p => decide (p.1 = c ∧ p.2 = some MatchStatus.CORRECT_POSITION))
              ((c', (none : Option MatchStatus))) = true then 1 else 0) = 0 := by simp
          have hnn0 : (if (fun p => decide (p.1 = c ∧ p.2 = none))
              ((c', (none : Option MatchStatus))) = true then 1 else 0) =
              (if c' = c then 1 else 0) := by
            by_cases hc : c' = c <;> simp [hc]
          cases hcons : consume c' actual with
          | some actual1 =>
              have hcount := consume_some_count c' actual actual1 hcons c
              have hpos : 1 ≤ actual.count (some c') := by
                have := consume_some_count c' actual actual1 hcons c'
                rw [this]; simp
              rw [pass2, hcons, List.map_cons, List.zip_cons_cons, List.countP_cons,
                List.countP_cons, List.countP_cons, ih actual1 hmkrest,
                hq0 MatchStatus.WRONG_POSITION (by simp), hcp0, hnn0]
              by_cases hc : c' = c
              · subst hc
                rw [if_pos rfl] at hcount ⊢
                omega
              · rw [if_neg (fun h => hc h.symm)] at hcount
                rw [if_neg hc]
                omega
          | none =>
              have h0 : actual.count (some c') = 0 := consume_none_count c' actual hcons
              have hq1 : (if (fun q => decide (q.1 = c ∧ q.2 ≠ MatchStatus.NO_MATCH))
                  ((c', MatchStatus.NO_MATCH)) = true then 1 else 0) = 0 := by simp
              rw [pass2, hcons, List.map_cons, List.zip_cons_cons, List.countP_cons,
                List.countP_cons, List.countP_cons, ih actual hmkrest, hq1, hcp0, hnn0]
              by_cases hc : c' = c
              · subst hc
                rw [if_pos rfl]
                omega
              · rw [if_neg hc]
                omega

theorem pass2_getD_correct_iff :
    ∀ (ps : List (Char × Option MatchStatus)) (actual : List (Option Char)) (i : ℕ),
      i < ps.length →
      ((pass2 ps actual).getD i MatchStatus.NO_MATCH = MatchStatus.CORRECT_POSITION ↔
        (ps.getD i ('?', none)).2 = some MatchStatus.CORRECT_POSITION) := by
  intro ps
  induction ps with
  | nil => intro actual i hi; simp at hi
  | cons p rest ih =>
      intro actual i hi
      obtain ⟨c', m⟩ := p
      cases m with
      | some st =>
          cases i with
          | zero => simp [pass2]
          | succ j =>
              rw [pass2]
              simp only [List.getD_cons_succ]
              exact ih actual j (by simpa using hi)
      | none =>
          cases hcons : consume c' actual with
          | some actual1 =>
              cases i with
              | zero => simp [pass2, hcons]
              | succ j =>
                  rw [pass2, hcons]
                  simp only [List.getD_cons_succ]
                  exact ih actual1 j (by simpa using hi)
          | none =>
              cases i with
              | zero => simp [pass2, hcons]
              | succ j =>
                  rw [pass2, hcons]
                  simp only [List.getD_cons_succ]
                  exact ih actual j (by simpa using hi)

theorem pass1Pairs_length : ∀ (G S : Word), (pass1Pairs G S).length = min G.length S.length
  | [], [] => by simp [pass1Pairs]
  | [], _ :: _ => by simp [pass1Pairs]
  | _ :: _, [] => by simp [pass1Pairs]
  | g :: gs, s :: ss => by
      rw [pass1Pairs]
      simp only [List.length_cons, pass1Pairs_length gs ss]
      omega

theorem pass1Pairs_marks :
    ∀ (G S : Word), ∀ p ∈ pass1Pairs G S,
      p.2 = none ∨ p.2 = some MatchStatus.CORRECT_POSITION
  | g :: gs, s :: ss, p, hp => by
      rw [pass1Pairs] at hp
      rcases List.mem_cons.mp hp with hp | hp
      · subst hp
        by_cases h : g = s <;> simp [h]
      · exact pass1Pairs_marks gs ss p hp
  | [], [], p, hp => by simp [pass1Pairs] at hp
  | [], _ :: _, p, hp => by simp [pass1Pairs] at hp
  | _ :: _, [], p, hp => by simp [pass1Pairs] at hp

theorem pass1Pairs_map_fst : ∀ (G S : Word), G.length ≤ S.length →
    (pass1Pairs G S).map Prod.fst = G
  | [], [], _ => by simp [pass1Pairs]
  | [], _ :: _, _ => by simp [pass1Pairs]
  | g :: gs, s :: ss, h => by
      rw [pass1Pairs]
      simp [pass1Pairs_map_fst gs ss (by simpa using h)]
  | _ :: _, [], h => by simp at h

theorem pass1Pairs_getD : ∀ (G S : Word) (i : ℕ), i < G.length → i < S.length →
    (pass1Pairs G S).getD i ('?', none) =
      (G.getD i '?',
        if G.getD i '?' = S.getD i '?' then some MatchStatus.CORRECT_POSITION else none)
  | g :: gs, s :: ss, 0, _, _ => by simp [pass1Pairs]
  | g :: gs, s :: ss, i + 1, hg, hs => by
      rw [pass1Pairs]
      simp only [List.getD_cons_succ]
      exact pass1Pairs_getD gs ss i (by simpa using hg) (by simpa using hs)
  | [], _, i, hg, _ => by simp at hg
  | _ :: _, [], i, _, hs => by simp at hs

theorem pass1_count_split (c : Char) : ∀ (G S : Word), G.length = S.length →
    (pass1Pairs G S).countP
          (fun p => decide (p.1 = c ∧ p.2 = some MatchStatus.CORRECT_POSITION)) +
        (pass1Pairs G S).countP (fun p => decide (p.1 = c ∧ p.2 = none)) = G.count c ∧
      (pass1Pairs G S).countP
          (fun p => decide (p.1 = c ∧ p.2 = some MatchStatus.CORRECT_POSITION)) +
        (pass1Actual G S).count (some c) = S.count c
  | [], [], _ => by simp [pass1Pairs, pass1Actual]
  | [], _ :: _, h => by simp at h
  | _ :: _, [], h => by simp at h
  | g :: gs, s :: ss, h => by
      obtain ⟨ih1, ih2⟩ := pass1_count_split c gs ss (by simpa using h)
      simp only [Bool.decide_and] at ih1 ih2
      rw [pass1Pairs, pass1Actual]
      simp only [List.countP_cons, List.count_cons, decide_eq_true_eq, beq_iff_eq]
      by_cases hgs : g = s
      · subst hgs
        by_cases hgc : g = c
        · subst hgc
          simp only [if_pos rfl]
          simp
          omega
        · simp [hgc, fun hh : c = g => hgc hh.symm]
          omega
      · by_cases hgc : g = c
        · subst hgc
          by_cases hsc : s = g
          · exact absurd hsc.symm hgs
          · simp [hgs, fun hh : g = s => hgs hh, hsc, fun hh : some s = some g => hsc (by simpa using hh)]
            omega
        · by_cases hsc : s = c
          · subst hsc
            simp [hgs, hgc, fun hh : s = g => hgs hh.symm]
            omega
          · simp [hgs, hgc, hsc, fun hh : c = g => hgc hh.symm,
              fun hh : (if g = s then none else some s) = some c => hsc (by
                rw [if_neg hgs] at hh; simpa using hh),
              fun hh : c = s => hsc hh.symm]
            omega

theorem countP_zip_fst {α β : Type} (q : α → Bool) :
    ∀ (l1 : List α) (l2 : List β), l1.length = l2.length →
      (l1.zip l2).countP (fun p => q p.1) = l1.countP q
  | [], [], _ => by simp
  | [], _ :: _, h => by simp at h
  | _ :: _, [], h => by simp at h
  | a :: l1, b :: l2, h => by
      simp only [List.zip_cons_cons, List.countP_cons]
      rw [countP_zip_fst q l1 l2 (by simpa using h)]

theorem countP_and_split {α : Type} (l : List α) (p q : α → Bool) :
    l.countP p = l.countP (fun a => p a && q a) + l.countP (fun a => p a && !(q a)) := by
  induction l with
  | nil => simp
  | cons a l ih =>
      simp only [List.countP_cons, ih]
      by_cases hp : p a
      · by_cases hq : q a <;> simp [hp, hq] <;> omega
      · simp [hp]

theorem simResult_length (G S : Word) (h : G.length = S.length) :
    (simResult G S).length = S.length := by
  rw [simResult, pass2_length, pass1Pairs_length]
  omega

theorem guessPairs_sim (G S : Word) (h : G.length = S.length) :
    guessPairs ⟨G, simResult G S⟩ =
      ((pass1Pairs G S).map Prod.fst).zip (pass2 (pass1Pairs G S) (pass1Actual G S)) := by
  rw [guessPairs, simResult, pass1Pairs_map_fst G S h.le]

theorem guessPairs_eq_zip (G S : Word) :
    guessPairs ⟨G, simResult G S⟩ = G.zip (simResult G S) := rfl

theorem guessPairs_sim_length (G S : Word) (h : G.length = S.length) :
    (guessPairs ⟨G, simResult G S⟩).length = S.length := by
  rw [guessPairs_eq_zip, List.length_zip, simResult_length G S h]
  omega

theorem sim_match_count (G S : Word) (h : G.length = S.length) (c : Char) :
    char_match_count ⟨G, simResult G S⟩ c = min (G.count c) (S.count c) := by
  rw [char_match_count, guessPairs_sim G S h,
    pass2_matched_count c _ _ (pass1Pairs_marks G S)]
  obtain ⟨h1, h2⟩ := pass1_count_split c G S h
  omega

theorem countP_fst_snd_partition {β : Type} [DecidableEq β] (c : Char) (x : β) :
    ∀ (l : List (Char × β)),
      l.countP (fun p => decide (p.1 = c ∧ p.2 ≠ x)) +
          l.countP (fun p => decide (p.1 = c ∧ p.2 = x)) =
        l.countP (fun p => decide (p.1 = c)) := by
  intro l
  simp only [Bool.decide_and, decide_not]
  induction l with
  | nil => simp
  | cons p l ih =>
      simp only [List.countP_cons]
      by_cases h1 : p.1 = c
      · by_cases h2 : p.2 = x <;> simp [h1, h2] <;> omega
      · simp [h1]
        omega

theorem count_eq_countP_decide {α : Type} [DecidableEq α] (l : List α) (c : α) :
    l.count c = l.countP (fun x => decide (x = c)) := by
  induction l with
  | nil => simp
  | cons a l ih =>
      simp only [List.count_cons, List.countP_cons, ih, beq_iff_eq, decide_eq_true_eq]

theorem sim_count_fst (G S : Word) (h : G.length = S.length) (c : Char) :
    (guessPairs ⟨G, simResult G S⟩).countP (fun p => decide (p.1 = c)) = G.count c := by
  have hl : G.length = (simResult G S).length := by rw [simResult_length G S h]; exact h
  rw [guessPairs_eq_zip, count_eq_countP_decide]
  exact countP_zip_fst (fun x => decide (x = c)) G (simResult G S) hl

theorem sim_nomatch_count (G S : Word) (h : G.length = S.length) (c : Char) :
    char_match_count ⟨G, simResult G S⟩ c +
      (guessPairs ⟨G, simResult G S⟩).countP
        (fun p => decide (p.1 = c ∧ p.2 = MatchStatus.NO_MATCH)) = G.count c := by
  rw [← sim_count_fst G S h c, char_match_count]
  exact countP_fst_snd_partition c MatchStatus.NO_MATCH _

theorem sim_mismatch_iff (G S : Word) (h : G.length = S.length) (c : Char) :
    char_mismatches ⟨G, simResult G S⟩ c ↔ S.count c < G.count c := by
  have hmem : char_mismatches ⟨G, simResult G S⟩ c ↔
      0 < (guessPairs ⟨G, simResult G S⟩).countP
        (fun p => decide (p.1 = c ∧ p.2 = MatchStatus.NO_MATCH)) := by
    rw [char_mismatches, List.countP_pos_iff]
    constructor
    · intro hm
      exact ⟨(c, MatchStatus.NO_MATCH), hm, by simp⟩
    · rintro ⟨⟨a, b⟩, hm, hp⟩
      simp only [decide_eq_true_eq] at hp
      obtain ⟨rfl, rfl⟩ := hp
      exact hm
  have hsplit := sim_nomatch_count G S h c
  have hmin := sim_match_count G S h c
  rw [hmem]
  omega

theorem sim_mismatch_match_count (G S : Word) (h : G.length = S.length) (c : Char)
    (hm : char_mismatches ⟨G, simResult G S⟩ c) :
    char_match_count ⟨G, simResult G S⟩ c = S.count c := by
  rw [sim_match_count G S h c]
  have := (sim_mismatch_iff G S h c).mp hm
  omega

theorem sim_getD_correct_iff (G S : Word) (h : G.length = S.length) (i : ℕ)
    (hi : i < S.length) :
    ((simResult G S).getD i MatchStatus.NO_MATCH = MatchStatus.CORRECT_POSITION ↔
      G.getD i '?' = S.getD i '?') := by
  rw [simResult, pass2_getD_correct_iff _ _ i (by rw [pass1Pairs_length]; omega),
    pass1Pairs_getD G S i (by omega) hi]
  by_cases hgs : G.getD i '?' = S.getD i '?' <;> simp [hgs]

theorem zip_getD {α β : Type} (d1 : α) (d2 : β) :
    ∀ (l1 : List α) (l2 : List β) (i : ℕ), i < l1.length → i < l2.length →
      (l1.zip l2).getD i (d1, d2) = (l1.getD i d1, l2.getD i d2)
  | [], _, i, h1, _ => by simp at h1
  | _ :: _, [], i, _, h2 => by simp at h2
  | a :: l1, b :: l2, 0, _, _ => by simp
  | a :: l1, b :: l2, i + 1, h1, h2 => by
      simp only [List.zip_cons_cons, List.getD_cons_succ]
      exact zip_getD d1 d2 l1 l2 i (by simpa using h1) (by simpa using h2)

theorem sim_pairs_getD (G S : Word) (h : G.length = S.length) (i : ℕ) (hi : i < S.length) :
    (guessPairs ⟨G, simResult G S⟩).getD i ('?', MatchStatus.NO_MATCH) =
      (G.getD i '?', (simResult G S).getD i MatchStatus.NO_MATCH) := by
  rw [guessPairs_eq_zip]
  exact zip_getD _ _ G (simResult G S) i (by omega) (by rw [simResult_length G S h]; omega)

theorem sim_correct_positions_sound (G S : Word) (h : G.length = S.length) (c : Char)
    (i : ℕ) (hi : i ∈ char_correct_positions ⟨G, simResult G S⟩ c) :
    i < S.length ∧ S.getD i '?' = c := by
  rw [char_correct_positions, Finset.mem_filter, Finset.mem_range,
    guessPairs_sim_length G S h] at hi
  obtain ⟨hlt, heq⟩ := hi
  rw [sim_pairs_getD G S h i hlt, Prod.mk.injEq] at heq
  obtain ⟨hg, hr⟩ := heq
  have := (sim_getD_correct_iff G S h i hlt).mp hr
  exact ⟨hlt, by rw [← this, hg]⟩

theorem sim_wrong_positions_sound (G S : Word) (h : G.length = S.length) (c : Char)
    (i : ℕ) (hi : i ∈ char_wrong_positions ⟨G, simResult G S⟩ c) :
    i < S.length ∧ S.getD i '?' ≠ c := by
  rw [char_wrong_positions, Finset.mem_filter, Finset.mem_range,
    guessPairs_sim_length G S h] at hi
  obtain ⟨hlt, hg, hr⟩ := hi
  rw [sim_pairs_getD G S h i hlt] at hg hr
  simp only at hg hr
  refine ⟨hlt, fun hs => hr ?_⟩
  rw [sim_getD_correct_iff G S h i hlt, hg, hs]

theorem card_filter_range_getD {α : Type} (P : α → Prop) [DecidablePred P] :
    ∀ (l : List α) (d : α),
      ((Finset.range l.length).filter (fun i => P (l.getD i d))).card =
        l.countP (fun a => decide (P a)) := by
  intro l
  induction l with
  | nil => intro d; simp
  | cons a l ih =>
      intro d
      rw [Finset.card_filter, List.length_cons, Finset.sum_range_succ']
      simp only [List.getD_cons_succ, List.getD_cons_zero]
      rw [← Finset.card_filter, ih d, List.countP_cons]
      by_cases hP : P a <;> simp [hP]

theorem card_filter_range_getD_eq_count {α : Type} [DecidableEq α] (l : List α) (d x : α) :
    ((Finset.range l.length).filter (fun i => l.getD i d = x)).card = l.count x := by
  rw [card_filter_range_getD (fun a => a = x) l d, ← count_eq_countP_decide]

theorem sum_count_le_length (T : Finset Char) (w : Word) :
    (∑ c ∈ T, w.count c) ≤ w.length := by
  induction w with
  | nil => simp
  | cons x w ih =>
      simp only [List.count_cons, beq_iff_eq]
      rw [Finset.sum_add_distrib]
      have h2 : (∑ c ∈ T, if x = c then 1 else 0) ≤ 1 := by
        rw [Finset.sum_ite_eq]
        by_cases h : x ∈ T <;> simp [h]
      simp only [List.length_cons]
      omega

/-! ### Structural facts about the merge (`AllInfo.__add__`) -/

theorem AllInfo.step_char (a : AllInfo) (gr : GuessResult) (c : Char) :
    (a.step gr c).char = (a.char_info c).char := rfl

theorem AllInfo.step_correct (a : AllInfo) (gr : GuessResult) (c : Char) :
    (a.step gr c).correct_positions =
      (a.char_info c).correct_positions ∪ char_correct_positions gr c := rfl

theorem AllInfo.step_wrong (a : AllInfo) (gr : GuessResult) (c : Char) :
    (a.step gr c).wrong_positions =
      (a.char_info c).wrong_positions ∪ char_wrong_positions gr c := rfl

theorem AllInfo.step_min (a : AllInfo) (gr : GuessResult) (c : Char) :
    (a.step gr c).min_amount =
      max (a.char_info c).min_amount (max (char_match_count gr c : ℤ)
        (((a.char_info c).correct_positions ∪ char_correct_positions gr c).card : ℤ)) := rfl

theorem AllInfo.step_max (a : AllInfo) (gr : GuessResult) (c : Char) :
    (a.step gr c).max_amount =
      if decide (char_mismatches gr c) then ((char_match_count gr c : ℤ) : WithTop ℤ)
      else (a.char_info c).max_amount := rfl

theorem AllInfo.add_char (a : AllInfo) (gr : GuessResult) (c : Char) :
    ((a.add gr).char_info c).char = (a.char_info c).char := rfl

theorem AllInfo.add_correct (a : AllInfo) (gr : GuessResult) (c : Char) :
    ((a.add gr).char_info c).correct_positions = (a.step gr c).correct_positions := rfl

theorem AllInfo.add_wrong (a : AllInfo) (gr : GuessResult) (c : Char) :
    ((a.add gr).char_info c).wrong_positions = (a.step gr c).wrong_positions := rfl

theorem AllInfo.add_min (a : AllInfo) (gr : GuessResult) (c : Char) :
    ((a.add gr).char_info c).min_amount = (a.step gr c).min_amount := rfl

theorem AllInfo.add_max (a : AllInfo) (gr : GuessResult) (c : Char) :
    ((a.add gr).char_info c).max_amount =
      min (a.step gr c).max_amount
        (min ((((a.step gr c).min_amount + ((gr.word.length : ℤ) - a.known_count gr)) : ℤ) : WithTop ℤ)
          ((((gr.word.length : ℤ) - ((a.step gr c).wrong_positions.card : ℤ)) : ℤ) : WithTop ℤ)) := rfl

/-- Well-formedness of the dict: each key's record carries that key as its
letter (always true of states built by the source, whose dict comprehensions
map `char` to a `CharInfo` with that same `char`). -/
def AllInfo.WF (a : AllInfo) : Prop := ∀ c, (a.char_info c).char = c

/-- All recorded wrong positions are positions of a length-`L` word (always
true of states built by the source from length-`L` feedback; a state violating
it could not return `True` from `match` on a length-`L` word, since the
source's `word[i]` lookup would raise). -/
def AllInfo.BoundedWrong (a : AllInfo) (L : ℕ) : Prop :=
  ∀ c, (a.char_info c).wrong_positions ⊆ Finset.range L

theorem AllInfo.init_WF : AllInfo.init.WF := fun _ => rfl

theorem AllInfo.init_boundedWrong (L : ℕ) : AllInfo.init.BoundedWrong L := fun c => by
  simp [AllInfo.init]

theorem AllInfo.init_match (w : Word) : AllInfo.init.Match w := by
  intro c _
  refine ⟨?_, ?_, ?_, ?_⟩
  · intro i hi
    simp [AllInfo.init] at hi
  · intro i hi
    simp [AllInfo.init] at hi
  · exact Int.natCast_nonneg _
  · exact le_top

theorem AllInfo.add_WF (a : AllInfo) (gr : GuessResult) (h : a.WF) : (a.add gr).WF :=
  fun c => by rw [AllInfo.add_char]; exact h c

theorem char_wrong_positions_subset_range (G S : Word) (h : G.length = S.length) (c : Char) :
    char_wrong_positions ⟨G, simResult G S⟩ c ⊆ Finset.range S.length := by
  rw [char_wrong_positions, guessPairs_sim_length G S h]
  exact Finset.filter_subset _ _

theorem AllInfo.add_boundedWrong (a : AllInfo) (G S : Word) (hlen : G.length = S.length)
    (h : a.BoundedWrong S.length) : (a.add ⟨G, simResult G S⟩).BoundedWrong S.length := by
  intro c
  rw [AllInfo.add_wrong, AllInfo.step_wrong]
  exact Finset.union_subset (h c) (char_wrong_positions_subset_range G S hlen c)

/-! ### Soundness of one merge against the true secret -/

theorem correct_union_subset (a : AllInfo) (G S : Word) (hlen : G.length = S.length)
    (c : Char) (hchar : (a.char_info c).char = c) (hq : c ≠ '?')
    (hm : (a.char_info c).Match S) :
    (a.char_info c).correct_positions ∪ char_correct_positions ⟨G, simResult G S⟩ c ⊆
      (Finset.range S.length).filter (fun i => S.getD i '?' = c) := by
  apply Finset.union_subset
  · intro i hi
    have hSi : S.getD i '?' = c := by
      have := hm.1 i hi
      rwa [hchar] at this
    have hilt : i < S.length := by
      by_contra hge
      rw [List.getD_eq_default S '?' (by omega)] at hSi
      exact hq hSi.symm
    exact Finset.mem_filter.mpr ⟨Finset.mem_range.mpr hilt, hSi⟩
  · intro i hi
    obtain ⟨hlt, hSi⟩ := sim_correct_positions_sound G S hlen c i hi
    exact Finset.mem_filter.mpr ⟨Finset.mem_range.mpr hlt, hSi⟩

theorem step_min_le_count (a : AllInfo) (G S : Word) (hlen : G.length = S.length)
    (c : Char) (hchar : (a.char_info c).char = c) (hq : c ≠ '?')
    (hm : (a.char_info c).Match S) :
    (a.step ⟨G, simResult G S⟩ c).min_amount ≤ (S.count c : ℤ) := by
  rw [AllInfo.step_min]
  have h1 : (a.char_info c).min_amount ≤ (S.count c : ℤ) := by
    have := hm.2.2.1
    rwa [hchar] at this
  have h2 : char_match_count ⟨G, simResult G S⟩ c ≤ S.count c := by
    rw [sim_match_count G S hlen c]
    omega
  have h3 : ((a.char_info c).correct_positions ∪
      char_correct_positions ⟨G, simResult G S⟩ c).card ≤ S.count c := by
    calc ((a.char_info c).correct_positions ∪
          char_correct_positions ⟨G, simResult G S⟩ c).card
        ≤ ((Finset.range S.length).filter (fun i => S.getD i '?' = c)).card :=
          Finset.card_le_card (correct_union_subset a G S hlen c hchar hq hm)
      _ = S.count c := card_filter_range_getD_eq_count S '?' c
  omega

theorem known_count_le (a : AllInfo) (G S : Word) (hlen : G.length = S.length)
    (hWF : a.WF) (hm : a.Match S) :
    a.known_count ⟨G, simResult G S⟩ ≤ (S.length : ℤ) := by
  rw [AllInfo.known_count]
  calc ∑ c ∈ ascii_uppercase, (a.step ⟨G, simResult G S⟩ c).min_amount
      ≤ ∑ c ∈ ascii_uppercase, (S.count c : ℤ) :=
        Finset.sum_le_sum (fun c hc =>
          step_min_le_count a G S hlen c (hWF c) (mem_ascii_ne_query c hc) (hm c hc))
    _ = ((∑ c ∈ ascii_uppercase, S.count c : ℕ) : ℤ) := by push_cast; rfl
    _ ≤ (S.length : ℤ) := by exact_mod_cast sum_count_le_length ascii_uppercase S

theorem count_le_min_add_slack (a : AllInfo) (G S : Word) (hlen : G.length = S.length)
    (c : Char) (hc : c ∈ ascii_uppercase) (hWF : a.WF) (hm : a.Match S) :
    (S.count c : ℤ) ≤ (a.step ⟨G, simResult G S⟩ c).min_amount +
      ((G.length : ℤ) - a.known_count ⟨G, simResult G S⟩) := by
  have hsum : (a.step ⟨G, simResult G S⟩ c).min_amount +
      ∑ d ∈ ascii_uppercase.erase c, (a.step ⟨G, simResult G S⟩ d).min_amount =
      a.known_count ⟨G, simResult G S⟩ := by
    rw [AllInfo.known_count]
    exact Finset.add_sum_erase ascii_uppercase
      (fun d => (a.step ⟨G, simResult G S⟩ d).min_amount) hc
  have h1 : ∑ d ∈ ascii_uppercase.erase c, (a.step ⟨G, simResult G S⟩ d).min_amount ≤
      ∑ d ∈ ascii_uppercase.erase c, (S.count d : ℤ) :=
    Finset.sum_le_sum (fun d hd =>
      step_min_le_count a G S hlen d (hWF d)
        (mem_ascii_ne_query d (Finset.mem_of_mem_erase hd))
        (hm d (Finset.mem_of_mem_erase hd)))
  have h2 : (S.count c : ℤ) + ∑ d ∈ ascii_uppercase.erase c, (S.count d : ℤ) =
      ∑ d ∈ ascii_uppercase, (S.count d : ℤ) :=
    Finset.add_sum_erase ascii_uppercase (fun d => ((S.count d : ℕ) : ℤ)) hc
  have h3 : ∑ d ∈ ascii_uppercase, (S.count d : ℤ) ≤ (S.length : ℤ) := by
    calc ∑ d ∈ ascii_uppercase, (S.count d : ℤ)
        = ((∑ d ∈ ascii_uppercase, S.count d : ℕ) : ℤ) := by push_cast; rfl
      _ ≤ (S.length : ℤ) := by exact_mod_cast sum_count_le_length ascii_uppercase S
  omega

theorem count_le_len_sub_wrong (a : AllInfo) (G S : Word) (hlen : G.length = S.length)
    (c : Char) (hchar : (a.char_info c).char = c)
    (hBW : (a.char_info c).wrong_positions ⊆ Finset.range S.length)
    (hm : (a.char_info c).Match S) :
    (S.count c : ℤ) ≤ (G.length : ℤ) -
      (((a.step ⟨G, simResult G S⟩ c).wrong_positions).card : ℤ) := by
  rw [AllInfo.step_wrong]
  have hWrange : (a.char_info c).wrong_positions ∪
      char_wrong_positions ⟨G, simResult G S⟩ c ⊆ Finset.range S.length :=
    Finset.union_subset hBW (char_wrong_positions_subset_range G S hlen c)
  have hWnotc : ∀ i ∈ (a.char_info c).wrong_positions ∪
      char_wrong_positions ⟨G, simResult G S⟩ c, ¬ (S.getD i '?' = c) := by
    intro i hi
    rcases Finset.mem_union.mp hi with hi | hi
    · have := hm.2.1 i hi
      rwa [hchar] at this
    · exact (sim_wrong_positions_sound G S hlen c i hi).2
  have hdisj : Disjoint ((a.char_info c).wrong_positions ∪
      char_wrong_positions ⟨G, simResult G S⟩ c)
      ((Finset.range S.length).filter (fun i => S.getD i '?' = c)) := by
    rw [Finset.disjoint_left]
    intro i hiW hif
    exact hWnotc i hiW (Finset.mem_filter.mp hif).2
  have hcard : ((a.char_info c).wrong_positions ∪
        char_wrong_positions ⟨G, simResult G S⟩ c).card + S.count c ≤ S.length := by
    have hu := Finset.card_union_of_disjoint hdisj
    have hsub : (((a.char_info c).wrong_positions ∪
        char_wrong_positions ⟨G, simResult G S⟩ c) ∪
        (Finset.range S.length).filter (fun i => S.getD i '?' = c)) ⊆
        Finset.range S.length :=
      Finset.union_subset hWrange (Finset.filter_subset _ _)
    have hle := Finset.card_le_card hsub
    rw [hu, card_filter_range_getD_eq_count S '?' c, Finset.card_range] at hle
    exact hle
  omega

theorem count_le_step_max (a : AllInfo) (G S : Word) (hlen : G.length = S.length)
    (c : Char) (hchar : (a.char_info c).char = c) (hm : (a.char_info c).Match S) :
    ((S.count c : ℤ) : WithTop ℤ) ≤ (a.step ⟨G, simResult G S⟩ c).max_amount := by
  rw [AllInfo.step_max]
  by_cases hmm : char_mismatches ⟨G, simResult G S⟩ c
  · rw [if_pos (by simpa using hmm), sim_mismatch_match_count G S hlen c hmm]
  · rw [if_neg (by simpa using hmm)]
    have := hm.2.2.2
    rwa [hchar] at this

theorem sim_gr_word (G S : Word) : (GuessResult.mk G (simResult G S)).word = G := rfl

theorem add_match (a : AllInfo) (G S : Word) (hlen : G.length = S.length)
    (hWF : a.WF) (hBW : a.BoundedWrong S.length) (hm : a.Match S) :
    (a.add ⟨G, simResult G S⟩).Match S := by
  intro c hc
  have hchar := hWF c
  have hmc := hm c hc
  have hq := mem_ascii_ne_query c hc
  refine ⟨?_, ?_, ?_, ?_⟩
  · intro i hi
    rw [AllInfo.add_char, hchar]
    rw [AllInfo.add_correct, AllInfo.step_correct] at hi
    have := correct_union_subset a G S hlen c hchar hq hmc hi
    exact (Finset.mem_filter.mp this).2
  · intro i hi
    rw [AllInfo.add_char, hchar]
    rw [AllInfo.add_wrong, AllInfo.step_wrong] at hi
    rcases Finset.mem_union.mp hi with hi | hi
    · have := hmc.2.1 i hi
      rwa [hchar] at this
    · exact (sim_wrong_positions_sound G S hlen c i hi).2
  · rw [AllInfo.add_min, AllInfo.add_char, hchar]
    exact step_min_le_count a G S hlen c hchar hq hmc
  · rw [AllInfo.add_char, hchar, AllInfo.add_max, sim_gr_word]
    refine le_min (count_le_step_max a G S hlen c hchar hmc) (le_min ?_ ?_)
    · have := count_le_min_add_slack a G S hlen c hc hWF hm
      exact_mod_cast this
    · have := count_le_len_sub_wrong a G S hlen c hchar (hBW c) hmc
      exact_mod_cast this

/-! ### Interval facts after a merge, and the merge fold -/

theorem add_card_le_min (a : AllInfo) (gr : GuessResult) (c : Char) :
    ((((a.add gr).char_info c).correct_positions.card : ℤ)) ≤
      ((a.add gr).char_info c).min_amount := by
  rw [AllInfo.add_correct, AllInfo.add_min, AllInfo.step_correct, AllInfo.step_min]
  exact le_max_of_le_right (le_max_right _ _)

theorem add_min_le_max (a : AllInfo) (G S : Word) (hlen : G.length = S.length)
    (hWF : a.WF) (hBW : a.BoundedWrong S.length) (hm : a.Match S)
    (c : Char) (hc : c ∈ ascii_uppercase) :
    ((((a.add ⟨G, simResult G S⟩).char_info c).min_amount : ℤ) : WithTop ℤ) ≤
      ((a.add ⟨G, simResult G S⟩).char_info c).max_amount := by
  have h1 : ((a.add ⟨G, simResult G S⟩).char_info c).min_amount ≤ (S.count c : ℤ) := by
    rw [AllInfo.add_min]
    exact step_min_le_count a G S hlen c (hWF c) (mem_ascii_ne_query c hc) (hm c hc)
  have h2 := (add_match a G S hlen hWF hBW hm c hc).2.2.2
  rw [AllInfo.add_char, hWF c] at h2
  exact le_trans (by exact_mod_cast h1) h2

theorem add_max_le_len (a : AllInfo) (gr : GuessResult) (c : Char) :
    ((a.add gr).char_info c).max_amount ≤ ((gr.word.length : ℤ) : WithTop ℤ) := by
  rw [AllInfo.add_max]
  refine le_trans (min_le_right _ _) (le_trans (min_le_right _ _) ?_)
  have h : (gr.word.length : ℤ) - (((a.step gr c).wrong_positions.card : ℕ) : ℤ) ≤
      (gr.word.length : ℤ) := by omega
  exact_mod_cast h

/-- The constraint state after merging the simulated feedback of a list of
guesses against the secret `S`, starting from the initial state. -/
def mergeAll (S : Word) (gs : List Word) : AllInfo :=
  gs.foldl (fun a G => a.add ⟨G, simResult G S⟩) AllInfo.init

theorem fold_inv (S : Word) :
    ∀ (gs : List Word) (a : AllInfo),
      a.WF → a.BoundedWrong S.length → a.Match S →
      (∀ G ∈ gs, G.length = S.length) →
      (gs.foldl (fun a G => a.add ⟨G, simResult G S⟩) a).WF ∧
        (gs.foldl (fun a G => a.add ⟨G, simResult G S⟩) a).BoundedWrong S.length ∧
        (gs.foldl (fun a G => a.add ⟨G, simResult G S⟩) a).Match S
  | [], a, h1, h2, h3, _ => ⟨h1, h2, h3⟩
  | G :: gs, a, h1, h2, h3, hlen => by
      rw [List.foldl_cons]
      have hG : G.length = S.length := hlen G (List.mem_cons_self _ _)
      exact fold_inv S gs (a.add ⟨G, simResult G S⟩)
        (AllInfo.add_WF a _ h1)
        (AllInfo.add_boundedWrong a G S hG h2)
        (add_match a G S hG h1 h2 h3)
        (fun G' hG' => hlen G' (List.mem_cons_of_mem _ hG'))

theorem mergeAll_inv (S : Word) (gs : List Word) (hlen : ∀ G ∈ gs, G.length = S.length) :
    (mergeAll S gs).WF ∧ (mergeAll S gs).BoundedWrong S.length ∧ (mergeAll S gs).Match S :=
  fold_inv S gs AllInfo.init AllInfo.init_WF (AllInfo.init_boundedWrong S.length)
    (AllInfo.init_match S) hlen

/-! ### Idempotence of the merge -/

theorem AllInfo.ext_char_info (x y : AllInfo) (h : ∀ c, x.char_info c = y.char_info c) : x = y := by
  cases x
  cases y
  congr 1
  funext c
  exact h c

theorem CharInfo.ext_fields (x y : CharInfo) (h1 : x.char = y.char)
    (h2 : x.correct_positions = y.correct_positions)
    (h3 : x.wrong_positions = y.wrong_positions)
    (h4 : x.min_amount = y.min_amount) (h5 : x.max_amount = y.max_amount) : x = y := by
  cases x
  cases y
  simp_all

theorem step_idem_correct (a : AllInfo) (gr : GuessResult) (c : Char) :
    ((a.add gr).step gr c).correct_positions = (a.step gr c).correct_positions := by
  rw [AllInfo.step_correct, AllInfo.add_correct, AllInfo.step_correct,
    Finset.union_assoc, Finset.union_self]

theorem step_idem_wrong (a : AllInfo) (gr : GuessResult) (c : Char) :
    ((a.add gr).step gr c).wrong_positions = (a.step gr c).wrong_positions := by
  rw [AllInfo.step_wrong, AllInfo.add_wrong, AllInfo.step_wrong,
    Finset.union_assoc, Finset.union_self]

theorem step_idem_min (a : AllInfo) (gr : GuessResult) (c : Char) :
    ((a.add gr).step gr c).min_amount = (a.step gr c).min_amount := by
  rw [AllInfo.step_min, AllInfo.add_min, AllInfo.step_min, AllInfo.add_correct,
    AllInfo.step_correct, Finset.union_assoc, Finset.union_self, max_assoc, max_self]

theorem known_idem (a : AllInfo) (gr : GuessResult) :
    (a.add gr).known_count gr = a.known_count gr := by
  rw [AllInfo.known_count, AllInfo.known_count]
  exact Finset.sum_congr rfl (fun c _ => step_idem_min a gr c)

theorem merge_idem (a : AllInfo) (gr : GuessResult) : (a.add gr).add gr = a.add gr := by
  apply AllInfo.ext_char_info
  intro c
  apply CharInfo.ext_fields
  · rfl
  · rw [AllInfo.add_correct, AllInfo.add_correct, step_idem_correct]
  · rw [AllInfo.add_wrong, AllInfo.add_wrong, step_idem_wrong]
  · rw [AllInfo.add_min, AllInfo.add_min, step_idem_min]
  · rw [AllInfo.add_max ((a.add gr)) gr c, AllInfo.add_max a gr c, known_idem,
      step_idem_min, step_idem_wrong]
    rw [AllInfo.step_max ((a.add gr)) gr c, AllInfo.step_max a gr c, AllInfo.add_max a gr c]
    by_cases hP : char_mismatches gr c
    · rw [if_pos (by simpa using hP), if_pos (by simpa using hP)]
    · rw [if_neg (by simpa using hP), if_neg (by simpa using hP), min_assoc, min_self,
        AllInfo.step_max a gr c, if_neg (by simpa using hP)]

/-! ### The spec's wording of the update rule (§4.3), for comparison -/

/-- Spec §4.3: `observedCount` = number of positions in this guess marked
CorrectPosition or WrongPosition for this letter. -/
def observedCount (gr : GuessResult) (c : Char) : ℕ :=
  ((Finset.range (guessPairs gr).length).filter (fun i =>
    ((guessPairs gr).getD i ('?', MatchStatus.NO_MATCH)).1 = c ∧
      (((guessPairs gr).getD i ('?', MatchStatus.NO_MATCH)).2 = MatchStatus.CORRECT_POSITION ∨
        ((guessPairs gr).getD i ('?', MatchStatus.NO_MATCH)).2 = MatchStatus.WRONG_POSITION))).card

/-- Spec §4.3: `hasExactCountKnown` = at least one position in this guess was
marked NoMatch for this letter. -/
def hasExactCountKnown (gr : GuessResult) (c : Char) : Prop :=
  ∃ i ∈ Finset.range (guessPairs gr).length,
    (guessPairs gr).getD i ('?', MatchStatus.NO_MATCH) = (c, MatchStatus.NO_MATCH)

instance (gr : GuessResult) (c : Char) : Decidable (hasExactCountKnown gr c) := by
  unfold hasExactCountKnown
  exact inferInstance

/-- Spec §4.3 per-guess update, as worded in the spec:
`correctPositions ∪ new`, `wrongPositions ∪ new`,
`minCount = max(minCount, observedCount, |correctPositions unioned|)`,
`maxCount = observedCount if hasExactCountKnown else maxCount`. -/
def specTighten (prior : CharInfo) (gr : GuessResult) (c : Char) : CharInfo :=
  { char := prior.char
    correct_positions := prior.correct_positions ∪ char_correct_positions gr c
    wrong_positions := prior.wrong_positions ∪ char_wrong_positions gr c
    min_amount := max prior.min_amount (max ((observedCount gr c : ℕ) : ℤ)
      (((prior.correct_positions ∪ char_correct_positions gr c).card : ℤ)))
    max_amount := if hasExactCountKnown gr c then ((observedCount gr c : ℤ) : WithTop ℤ)
      else prior.max_amount }

/-- Spec §4.3 cross-letter tightening: with `knownMin = Σ minCount` over all
letters and `unknownSlack = L - knownMin`, every letter's maxCount becomes
`min(maxCount, minCount + unknownSlack, L - |wrongPositions|)`. -/
def specMerge (a : AllInfo) (gr : GuessResult) : AllInfo :=
  ⟨fun c =>
    { specTighten (a.char_info c) gr c with
      max_amount :=
        min (specTighten (a.char_info c) gr c).max_amount
          (min ((((specTighten (a.char_info c) gr c).min_amount +
              ((gr.word.length : ℤ) -
                ∑ d ∈ ascii_uppercase, (specTighten (a.char_info d) gr d).min_amount)) : ℤ) :
                  WithTop ℤ)
            ((((gr.word.length : ℤ) -
              (((specTighten (a.char_info c) gr c).wrong_positions.card : ℕ) : ℤ)) : ℤ) :
                WithTop ℤ)) }⟩

theorem observedCount_eq (gr : GuessResult) (c : Char) :
    observedCount gr c = char_match_count gr c := by
  rw [observedCount, char_match_count,
    card_filter_range_getD
      (fun p => p.1 = c ∧
        (p.2 = MatchStatus.CORRECT_POSITION ∨ p.2 = MatchStatus.WRONG_POSITION))
      (guessPairs gr) ('?', MatchStatus.NO_MATCH)]
  apply List.countP_congr
  intro p _
  simp only [decide_eq_true_eq]
  constructor
  · rintro ⟨h1, h2 | h2⟩ <;> exact ⟨h1, by rw [h2]; simp⟩
  · rintro ⟨h1, h2⟩
    refine ⟨h1, ?_⟩
    cases hp : p.2 with
    | NO_MATCH => exact absurd hp h2
    | WRONG_POSITION => exact Or.inr rfl
    | CORRECT_POSITION => exact Or.inl rfl

theorem hasExactCountKnown_iff (gr : GuessResult) (c : Char) :
    hasExactCountKnown gr c ↔ char_mismatches gr c := by
  rw [hasExactCountKnown, char_mismatches]
  constructor
  · rintro ⟨i, hi, heq⟩
    rw [Finset.mem_range] at hi
    rw [← heq, List.getD_eq_getElem _ _ hi]
    exact List.getElem_mem hi
  · intro hm
    obtain ⟨i, hi, heq⟩ := List.mem_iff_getElem.mp hm
    exact ⟨i, Finset.mem_range.mpr hi, by rw [List.getD_eq_getElem _ _ hi]; exact heq⟩

theorem specTighten_eq_step (a : AllInfo) (gr : GuessResult) (c : Char) :
    specTighten (a.char_info c) gr c = a.step gr c := by
  apply CharInfo.ext_fields
  · rfl
  · rfl
  · rfl
  · show max (a.char_info c).min_amount _ = _
    rw [AllInfo.step_min, observedCount_eq]
  · show (if hasExactCountKnown gr c then ((observedCount gr c : ℤ) : WithTop ℤ)
        else (a.char_info c).max_amount) = _
    rw [AllInfo.step_max, observedCount_eq]
    exact if_congr (by rw [hasExactCountKnown_iff, decide_eq_true_eq]) rfl rfl

theorem specMerge_eq_add (a : AllInfo) (gr : GuessResult) (c : Char) :
    (a.add gr).char_info c = (specMerge a gr).char_info c := by
  have hsum : ∑ d ∈ ascii_uppercase, (specTighten (a.char_info d) gr d).min_amount =
      a.known_count gr := by
    rw [AllInfo.known_count]
    exact Finset.sum_congr rfl (fun d _ => by rw [specTighten_eq_step])
  apply CharInfo.ext_fields
  · show _ = (specTighten (a.char_info c) gr c).char
    rw [specTighten_eq_step, AllInfo.add_char, AllInfo.step_char]
  · show _ = (specTighten (a.char_info c) gr c).correct_positions
    rw [specTighten_eq_step, AllInfo.add_correct]
  · show _ = (specTighten (a.char_info c) gr c).wrong_positions
    rw [specTighten_eq_step, AllInfo.add_wrong]
  · show _ = (specTighten (a.char_info c) gr c).min_amount
    rw [specTighten_eq_step, AllInfo.add_min]
  · show _ = min (specTighten (a.char_info c) gr c).max_amount
      (min ((((specTighten (a.char_info c) gr c).min_amount +
          ((gr.word.length : ℤ) -
            ∑ d ∈ ascii_uppercase, (specTighten (a.char_info d) gr d).min_amount)) : ℤ) :
              WithTop ℤ)
        ((((gr.word.length : ℤ) -
          (((specTighten (a.char_info c) gr c).wrong_positions.card : ℕ) : ℤ)) : ℤ) :
            WithTop ℤ))
    rw [hsum, specTighten_eq_step, AllInfo.add_max]

/-! ### The claims -/

/-- C1: soundness of constraint merging — for every secret `S` and guess `G`
of the same length, a ConstraintSet (well-formed dict, wrong positions within
the word as any state whose `match` can return True must have) that matches
`S` still matches `S` after merging the feedback of `simulate(G, S)`: the true
secret is never filtered out. -/
theorem C1_merge_soundness (a : AllInfo) (G S : Word) (hWF : a.WF)
    (hBW : a.BoundedWrong S.length) (hlen : G.length = S.length) (hm : a.Match S) :
    (a.add ⟨G, simResult G S⟩).Match S :=
  add_match a G S hlen hWF hBW hm

theorem C1_merge_soundness_witness :
    AllInfo.init.WF ∧ AllInfo.init.BoundedWrong (['T','R','A','C','E'] : Word).length ∧
      (['S','L','A','T','E'] : Word).length = (['T','R','A','C','E'] : Word).length ∧
      AllInfo.init.Match ['T','R','A','C','E'] ∧
      (AllInfo.init.add ⟨['S','L','A','T','E'],
        simResult ['S','L','A','T','E'] ['T','R','A','C','E']⟩).Match ['T','R','A','C','E'] :=
  ⟨AllInfo.init_WF, AllInfo.init_boundedWrong _, by decide, by decide,
    C1_merge_soundness AllInfo.init ['S','L','A','T','E'] ['T','R','A','C','E']
      AllInfo.init_WF (AllInfo.init_boundedWrong _) (by decide) (by decide)⟩

/-- C2: the per-letter constraint update computes exactly
`correctPositions' = correctPositions ∪ new`, `wrongPositions' = wrongPositions ∪ new`,
`minCount' = max(minCount, observedCount, |correctPositions'|)`,
`maxCount' = observedCount` when some position of the letter was NoMatch in the
guess else the prior maxCount, followed once per merge by tightening every
letter's maxCount to
`min(maxCount', minCount' + (L - Σ minCount'), L - |wrongPositions'|)`. -/
theorem C2_update_rule (a : AllInfo) (gr : GuessResult) (c : Char) :
    (a.add gr).char_info c = (specMerge a gr).char_info c :=
  specMerge_eq_add a gr c

/-- C3 as stated is false: the secret "ERASE" contains two E's (not one), and
`simulate("SPEED","ERASE")` marks both guess E's as WrongPosition and neither
as NoMatch, so "exactly one consuming E and one NoMatch E" fails. -/
theorem C3_counterexample :
    ¬ ((guessPairs ⟨['S','P','E','E','D'],
          simResult ['S','P','E','E','D'] ['E','R','A','S','E']⟩).countP
            (fun p => decide (p.1 = 'E' ∧ p.2 ≠ MatchStatus.NO_MATCH)) = 1 ∧
        (guessPairs ⟨['S','P','E','E','D'],
          simResult ['S','P','E','E','D'] ['E','R','A','S','E']⟩).countP
            (fun p => decide (p.1 = 'E' ∧ p.2 = MatchStatus.NO_MATCH)) = 1) := by
  decide

/-- C3 amended: "ERASE" has two E's; `simulate("SPEED","ERASE")` yields
[WrongPosition, NoMatch, WrongPosition, WrongPosition, NoMatch]: the two guess
E's consume the two distinct secret E occurrences — the number of consuming
E positions is exactly min(2, 2) — and no secret occurrence is consumed by two
guess positions. -/
theorem C3_duplicate_letters :
    simResult ['S','P','E','E','D'] ['E','R','A','S','E'] =
      [MatchStatus.WRONG_POSITION, MatchStatus.NO_MATCH, MatchStatus.WRONG_POSITION,
        MatchStatus.WRONG_POSITION, MatchStatus.NO_MATCH] ∧
      char_match_count ⟨['S','P','E','E','D'],
          simResult ['S','P','E','E','D'] ['E','R','A','S','E']⟩ 'E' =
        min ((['S','P','E','E','D'] : Word).count 'E')
          ((['E','R','A','S','E'] : Word).count 'E') ∧
      (['S','P','E','E','D'] : Word).count 'E' = 2 ∧
      (['E','R','A','S','E'] : Word).count 'E' = 2 := by
  decide

/-- C4 as stated is false: merging the single length-1 GuessResult
`("A", [WrongPosition])` (legal feedback data, though no simulation produces
it) into the initial state gives letter A `min_amount = 1 > 0 = max_amount`. -/
theorem C4_counterexample :
    ¬ (∀ c ∈ ascii_uppercase,
        ((((AllInfo.init.add
              ⟨['A'], [MatchStatus.WRONG_POSITION]⟩).char_info c).correct_positions.card : ℤ) ≤
            ((AllInfo.init.add
              ⟨['A'], [MatchStatus.WRONG_POSITION]⟩).char_info c).min_amount ∧
          ((((AllInfo.init.add
              ⟨['A'], [MatchStatus.WRONG_POSITION]⟩).char_info c).min_amount : ℤ) : WithTop ℤ) ≤
            ((AllInfo.init.add
              ⟨['A'], [MatchStatus.WRONG_POSITION]⟩).char_info c).max_amount ∧
          ((AllInfo.init.add
              ⟨['A'], [MatchStatus.WRONG_POSITION]⟩).char_info c).max_amount ≤
            ((((['A'] : Word).length : ℕ) : ℤ) : WithTop ℤ))) := by
  decide

/-- C4 amended: for feedback produced by `simulate` against one secret `S`
(guesses of `S`'s length) and at least one merge — the initial state has
`max_amount = ∞` — every uppercase letter's constraint satisfies
`|correctPositions| ≤ minCount ≤ maxCount ≤ L`. -/
theorem C4_interval_validity (S : Word) (gs : List Word) (G : Word)
    (hlen : ∀ X ∈ gs, X.length = S.length) (hG : G.length = S.length) :
    ∀ c ∈ ascii_uppercase,
      ((((mergeAll S gs).add ⟨G, simResult G S⟩).char_info c).correct_positions.card : ℤ) ≤
          (((mergeAll S gs).add ⟨G, simResult G S⟩).char_info c).min_amount ∧
        (((((mergeAll S gs).add ⟨G, simResult G S⟩).char_info c).min_amount : ℤ) : WithTop ℤ) ≤
          (((mergeAll S gs).add ⟨G, simResult G S⟩).char_info c).max_amount ∧
        (((mergeAll S gs).add ⟨G, simResult G S⟩).char_info c).max_amount ≤
          ((S.length : ℤ) : WithTop ℤ) := by
  intro c hc
  obtain ⟨hWF, hBW, hm⟩ := mergeAll_inv S gs hlen
  refine ⟨add_card_le_min _ _ c, add_min_le_max _ G S hG hWF hBW hm c hc, ?_⟩
  have h := add_max_le_len (mergeAll S gs) ⟨G, simResult G S⟩ c
  rw [sim_gr_word, hG] at h
  exact h

theorem C4_interval_validity_witness :
    (∀ X ∈ ([] : List Word), X.length = (['T','R','A','C','E'] : Word).length) ∧
      (['C','R','A','N','E'] : Word).length = (['T','R','A','C','E'] : Word).length ∧
      ∀ c ∈ ascii_uppercase,
        ((((mergeAll ['T','R','A','C','E'] []).add ⟨['C','R','A','N','E'],
              simResult ['C','R','A','N','E'] ['T','R','A','C','E']⟩).char_info
                c).correct_positions.card : ℤ) ≤
            (((mergeAll ['T','R','A','C','E'] []).add ⟨['C','R','A','N','E'],
              simResult ['C','R','A','N','E'] ['T','R','A','C','E']⟩).char_info c).min_amount ∧
          (((((mergeAll ['T','R','A','C','E'] []).add ⟨['C','R','A','N','E'],
              simResult ['C','R','A','N','E'] ['T','R','A','C','E']⟩).char_info
                c).min_amount : ℤ) : WithTop ℤ) ≤
            (((mergeAll ['T','R','A','C','E'] []).add ⟨['C','R','A','N','E'],
              simResult ['C','R','A','N','E'] ['T','R','A','C','E']⟩).char_info c).max_amount ∧
          (((mergeAll ['T','R','A','C','E'] []).add ⟨['C','R','A','N','E'],
              simResult ['C','R','A','N','E'] ['T','R','A','C','E']⟩).char_info c).max_amount ≤
            (((['T','R','A','C','E'] : Word).length : ℤ) : WithTop ℤ) :=
  ⟨by decide, by decide,
    C4_interval_validity ['T','R','A','C','E'] [] ['C','R','A','N','E']
      (by decide) (by decide)⟩

/-- C5 as stated is false: "TRACE" contains a C (position 4) and has R at the
guess's R position, so `simulate("CRANE","TRACE")` marks C as WrongPosition
(not NoMatch) and R as CorrectPosition (not WrongPosition). -/
theorem C5_counterexample :
    ¬ (simResult ['C','R','A','N','E'] ['T','R','A','C','E'] =
      [MatchStatus.NO_MATCH, MatchStatus.WRONG_POSITION, MatchStatus.CORRECT_POSITION,
        MatchStatus.NO_MATCH, MatchStatus.CORRECT_POSITION]) := by
  decide

/-- C5 amended: with that vocabulary and secret "TRACE", the guess "CRANE"
yields C→WrongPosition, R→CorrectPosition, A→CorrectPosition, N→NoMatch,
E→CorrectPosition, and merging this feedback into the fresh session reduces
the candidate subset to exactly {TRACE, GRACE, BRACE}. -/
theorem C5_end_to_end :
    simResult ['C','R','A','N','E'] ['T','R','A','C','E'] =
      [MatchStatus.WRONG_POSITION, MatchStatus.CORRECT_POSITION,
        MatchStatus.CORRECT_POSITION, MatchStatus.NO_MATCH,
        MatchStatus.CORRECT_POSITION] ∧
      ((Game.create
          [['C','R','A','N','E'], ['S','L','A','T','E'], ['T','R','A','C','E'],
            ['G','R','A','C','E'], ['B','R','A','C','E']]
          (some ['T','R','A','C','E'])).bind (fun g =>
        (g.automatic_check ['C','R','A','N','E']).map (fun gr =>
          (g.merge_result gr).possible_words))) =
      some [['T','R','A','C','E'], ['G','R','A','C','E'], ['B','R','A','C','E']] := by
  decide

/-- C6: merging is shrinking — the filtered candidate list is never longer —
and merging the same GuessResult a second time leaves the candidate list
exactly as after the first merge. -/
theorem C6_shrink_idempotent :
    (∀ (g : Game) (gr : GuessResult),
        ((g.merge_result gr).possible_words).length ≤ g.possible_words.length) ∧
      (∀ (g : Game) (gr : GuessResult),
        ((g.merge_result gr).merge_result gr).possible_words =
          (g.merge_result gr).possible_words) := by
  have hfilter : ∀ (a : AllInfo) (ws : List Word), a.filter (a.filter ws) = a.filter ws := by
    intro a ws
    rw [AllInfo.filter, AllInfo.filter, List.filter_filter]
    simp
  constructor
  · intro g gr
    exact List.length_filter_le _ _
  · intro g gr
    show ((g.all_info.add gr).add gr).filter ((g.all_info.add gr).filter g.possible_words) =
      (g.all_info.add gr).filter g.possible_words
    rw [merge_idem, hfilter]

/-- C7: guess proposal returns `none` (a value, not an exception) on an empty
candidate list and the unique word on a singleton candidate list. -/
theorem C7_terminal_behavior :
    (∀ g : Game, g.possible_words = [] → g.automatic_guess = none) ∧
      (∀ (g : Game) (W : Word), g.possible_words = [W] → g.automatic_guess = some W) := by
  constructor
  · intro g h
    rw [Game.automatic_guess, h]
    simp
  · intro g W h
    rw [Game.automatic_guess, h]
    simp

theorem C7_terminal_behavior_witness :
    (Game.mk none AllInfo.init 2 [['A','B']] []).automatic_guess = none ∧
      (Game.mk none AllInfo.init 2 [['A','B']] [['A','B']]).automatic_guess = some ['A','B'] :=
  ⟨C7_terminal_behavior.1 (Game.mk none AllInfo.init 2 [['A','B']] []) rfl,
    C7_terminal_behavior.2 (Game.mk none AllInfo.init 2 [['A','B']] [['A','B']]) ['A','B'] rfl⟩

/-- C8 as stated is false: a guess longer than the secret does not fail —
`simulate("ABC","AB")` returns a result (of the secret's length) even though
the lengths differ. -/
theorem C8_counterexample :
    (['A','B','C'] : Word).length ≠ (['A','B'] : Word).length ∧
      simulate ['A','B','C'] ['A','B'] ≠ none := by
  decide

/-- C8 amended: `simulate` fails exactly when the guess is shorter than the
secret (the source's IndexError; there is no dedicated LengthMismatch error),
and a successful simulation returns feedback of the secret's length (a longer
guess is silently truncated).  `automatic_check` reads but never writes the
session, so no failure can leave a partial merge. -/
theorem C8_length_mismatch (guess secret : Word) :
    (simulate guess secret = none ↔ guess.length < secret.length) ∧
      (∀ gr, simulate guess secret = some gr → gr.result.length = secret.length) := by
  constructor
  · rw [simulate]
    by_cases h : guess.length < secret.length <;> simp [h]
  · intro gr h
    rw [simulate] at h
    by_cases hl : guess.length < secret.length
    · rw [if_pos hl] at h
      exact absurd h (by simp)
    · rw [if_neg hl] at h
      obtain rfl : (⟨guess, simResult guess secret⟩ : GuessResult) = gr := by simpa using h
      show (simResult guess secret).length = secret.length
      rw [simResult, pass2_length, pass1Pairs_length]
      omega

theorem C8_length_mismatch_witness :
    ((simulate ['A','B','C'] ['A','B'] = none ↔
        (['A','B','C'] : Word).length < (['A','B'] : Word).length) ∧
      (GuessResult.mk ['A','B','C'] (simResult ['A','B','C'] ['A','B'])).result.length =
        (['A','B'] : Word).length) :=
  ⟨(C8_length_mismatch ['A','B','C'] ['A','B']).1,
    (C8_length_mismatch ['A','B','C'] ['A','B']).2
      (GuessResult.mk ['A','B','C'] (simResult ['A','B','C'] ['A','B'])) (by decide)⟩

/-- C9 as stated is false: a vocabulary with words of two different lengths is
accepted — session creation performs no uniform-length validation. -/
theorem C9_counterexample :
    (['A','B'] : Word).length ≠ (['X','Y','Z'] : Word).length ∧
      (Game.create [['A','B'], ['X','Y','Z']] none).isSome = true := by
  refine ⟨by decide, ?_⟩
  rfl

/-- C9 amended: session creation fails exactly when the supplied vocabulary is
empty (the source's `next(iter(words))` raising StopIteration); non-uniform
word lengths are not detected at creation. -/
theorem C9_vocabulary_validation (ws : List Word) (s : Option Word) :
    Game.create ws s = none ↔ ws = [] := by
  cases ws <;> simp [Game.create]

/-- C10: consumption-count law of the simulator — for an equal-length guess
and secret and any letter `c`, exactly `min(count of c in guess, count of c in
secret)` of the guess's `c` positions get a non-NoMatch status, and the rest
of the guess's `c` positions are NoMatch. -/
theorem C10_consumption_count (G S : Word) (c : Char) (hlen : G.length = S.length) :
    char_match_count ⟨G, simResult G S⟩ c = min (G.count c) (S.count c) ∧
      char_match_count ⟨G, simResult G S⟩ c +
        (guessPairs ⟨G, simResult G S⟩).countP
          (fun p => decide (p.1 = c ∧ p.2 = MatchStatus.NO_MATCH)) = G.count c :=
  ⟨sim_match_count G S hlen c, sim_nomatch_count G S hlen c⟩

theorem C10_consumption_count_witness :
    (['G','E','E','S','E'] : Word).length = (['E','R','A','S','E'] : Word).length ∧
      char_match_count ⟨['G','E','E','S','E'],
          simResult ['G','E','E','S','E'] ['E','R','A','S','E']⟩ 'E' =
        min ((['G','E','E','S','E'] : Word).count 'E')
          ((['E','R','A','S','E'] : Word).count 'E') ∧
      char_match_count ⟨['G','E','E','S','E'],
          simResult ['G','E','E','S','E'] ['E','R','A','S','E']⟩ 'E' +
        (guessPairs ⟨['G','E','E','S','E'],
            simResult ['G','E','E','S','E'] ['E','R','A','S','E']⟩).countP
          (fun p => decide (p.1 = 'E' ∧ p.2 = MatchStatus.NO_MATCH)) =
        (['G','E','E','S','E'] : Word).count 'E' :=
  ⟨by decide,
    (C10_consumption_count ['G','E','E','S','E'] ['E','R','A','S','E'] 'E' (by decide)).1,
    (C10_consumption_count ['G','E','E','S','E'] ['E','R','A','S','E'] 'E' (by decide)).2⟩
